import Mathlib

/-!
A verification development for the query-result cache (`src/query_cache.py`,
class `QueryCache`) and the voice-query parser (`src/voice_query_system.py`,
class `QueryParser`) of the Sport_Data repository.

The Python code is shallowly embedded: dictionaries become insertion-ordered
association lists (`alookup` is `d[k]` / `k in d`, `aupdate` is `d[k] = v`,
both with Python's first-key semantics and order preservation), ISO timestamp
parsing becomes a three-way outcome datum, and the parser's confidence — a sum
and max-chain of the literals 0.3, 0.8, 0.7, 0.9 and 0.4 — is computed exactly
in integral tenths and exposed as the exact rational it denotes.
-/

namespace SportData

/-! ### String helpers

Python's `pat in text` substring test, `str.lower` and `str.strip`, embedded
over `List Char` so that every operation reduces in the kernel. -/

/-- Is `pat` a prefix of `l`? (helper for the substring test). -/
def prefC : List Char → List Char → Bool
  | [], _ => true
  | _ :: _, [] => false
  | a :: as, b :: bs => a == b && prefC as bs

/-- Python's `pat in text` over char lists: `pat` occurs contiguously in `l`. -/
def subC : List Char → List Char → Bool
  | pat, [] => pat.isEmpty
  | pat, b :: bs => prefC pat (b :: bs) || subC pat bs

/-- Python's substring test `pat in s`. -/
def strContains (s pat : String) : Bool := subC pat.data s.data

/-- Python's `str.lower` (character-wise). -/
def strLower (s : String) : String := ⟨s.data.map Char.toLower⟩

/-- Python's `str.strip`: drop whitespace from both ends. -/
def trimChars (l : List Char) : List Char :=
  ((l.dropWhile Char.isWhitespace).reverse.dropWhile Char.isWhitespace).reverse

/-- `text.lower().strip()`, the normalization at the top of `parse_query`. -/
def normalize (text : String) : String := ⟨trimChars (strLower text).data⟩

/-! ### Python dicts as insertion-ordered association lists -/

/-- A parameter value: the Python code stores ints (`year`, `round`,
`league_id`) and strings (`team`, `player`) in its parameter dicts. -/
inductive PValue where
  | pint : Int → PValue
  | pstr : String → PValue
deriving DecidableEq, Repr

/-- Python's `str(value)` as used by f-string interpolation. -/
def PValue.render : PValue → String
  | .pint i => toString i
  | .pstr s => s

/-- Python truthiness of a parameter value (`if league_id:` / `if team:`):
zero and the empty string are falsy. -/
def pvTruthy : PValue → Bool
  | .pint i => i != 0
  | .pstr s => s != ""

/-- Dict lookup `d.get(k)` / membership `k in d` (first matching key). -/
def alookup {α : Type} : List (String × α) → String → Option α
  | [], _ => none
  | p :: rest, k => if p.1 = k then some p.2 else alookup rest k

/-- Dict assignment `d[k] = v`: replaces in place when the key is present
(insertion order kept), appends at the end when it is new. -/
def aupdate {α : Type} : List (String × α) → String → α → List (String × α)
  | [], k, v => [(k, v)]
  | p :: rest, k, v => if p.1 = k then (k, v) :: rest else p :: aupdate rest k v

/-! ### Cache keys (`QueryCache._generate_cache_key`) -/

/-- The fixed ordered list of parameter names that enter the cache key. -/
def key_params : List String := ["league_id", "team", "year", "round"]

/-- Python's `sep.join(parts)`. -/
def joinSep (sep : String) : List String → String
  | [] => ""
  | [x] => x
  | x :: y :: rest => x ++ sep ++ joinSep sep (y :: rest)

/-- `QueryCache._generate_cache_key`: start from `[query_type]`, append
`f"{param}_{parameters[param]}"` for each of `key_params` present in
`parameters`, and join with `"_"`. -/
def generate_cache_key (query_type : String) (parameters : List (String × PValue)) : String :=
  joinSep "_"
    (query_type ::
      key_params.filterMap (fun n => (alookup parameters n).map (fun v => n ++ "_" ++ v.render)))

/-- One optional key fragment, as the specification words it (for the
refinement direction of the cache-key claim): the fragment contributed by
parameter `n`, with its joining separator. -/
def keyFrag (parameters : List (String × PValue)) (n : String) : String :=
  match alookup parameters n with
  | some v => "_" ++ n ++ "_" ++ v.render
  | none => ""

/-- The cache key as described by the specification: `queryType` concatenated
with the fragment of each of `league_id`, `team`, `year`, `round` — in that
fixed order, each present only when the parameter is — joined by `"_"`. -/
def specCacheKey (query_type : String) (parameters : List (String × PValue)) : String :=
  query_type ++ keyFrag parameters "league_id" ++ keyFrag parameters "team" ++
    keyFrag parameters "year" ++ keyFrag parameters "round"

/-! ### The cache store (`QueryCache`) -/

/-- The result payload handed to `store_query_result`: the cache only ever
inspects its `success` field (`result_data.get('success', False)`); the rest
is opaque and kept verbatim. -/
structure ResultData where
  success : Option Bool
  payload : String
deriving DecidableEq, Repr

/-- One cache entry, as built by `store_query_result`. -/
structure CacheEntry where
  query_type : String
  parameters : List (String × PValue)
  result_data : ResultData
  original_text : String
  timestamp : String
  success : Bool
deriving DecidableEq, Repr

/-- The `cache_entry` dict literal of `store_query_result`. -/
def mkCacheEntry (query_type : String) (ps : List (String × PValue)) (rd : ResultData)
    (otext now : String) : CacheEntry :=
  ⟨query_type, ps, rd, otext, now, rd.success.getD false⟩

/-- The in-memory store `self.cache_data`: domain name → entry dict, plus the
`metadata.last_updated` field maintained by `_save_cache`. -/
structure Store where
  domains : List (String × List (String × CacheEntry))
  last_updated : String
deriving DecidableEq, Repr

/-- `QueryCache._save_cache`: sets `metadata.last_updated` to the current time
(the disk write is outside the model; on failure it is logged and swallowed). -/
def saveCache (s : Store) (now : String) : Store := ⟨s.domains, now⟩

/-- The store as `_load_cache` creates it when no cache file exists, and as
`clear_cache(None)` resets it. -/
def freshStore (now : String) : Store := ⟨[("f1", []), ("football", []), ("nba", [])], now⟩

/-- `QueryCache.store_query_result`: compute the key, build the entry, create
the domain's dict when absent, upsert, save; returns the key. -/
def store_query_result (s : Store) (sport query_type : String) (ps : List (String × PValue))
    (rd : ResultData) (otext now : String) : Store × String :=
  let ck := generate_cache_key query_type ps
  let entry := mkCacheEntry query_type ps rd otext now
  let dom := (alookup s.domains sport).getD []
  (saveCache ⟨aupdate s.domains sport (aupdate dom ck entry), s.last_updated⟩ now, ck)

/-- `QueryCache.get_query_result`: pure lookup, `none` when the domain or the
key is unknown. -/
def get_query_result (s : Store) (sport ck : String) : Option CacheEntry :=
  match alookup s.domains sport with
  | some m => alookup m ck
  | none => none

/-- `QueryCache.clear_cache`: with a truthy domain present in the store, reset
that domain's dict to empty; with `None` (or a falsy domain string), reset the
whole store; then save. -/
def clear_cache (s : Store) (sport : Option String) (now : String) : Store :=
  saveCache
    (match sport with
     | some d =>
        if d = "" then freshStore now
        else if (alookup s.domains d).isSome then ⟨aupdate s.domains d [], s.last_updated⟩
        else s
     | none => freshStore now) now

/-! ### Option listing (`QueryCache.get_available_options`) -/

/-- The fixed league-id → display-name table of `_get_league_name`. -/
def league_names : List (Int × String) :=
  [(2021, "英超"), (2014, "西甲"), (2002, "德甲"), (2019, "意甲"),
   (2015, "法甲"), (2017, "葡超"), (2003, "荷甲"), (2013, "巴甲")]

/-- `QueryCache._get_league_name` with the dict-`get` fallback `f"联赛{league_id}"`
(a non-int key can only miss the table, hence always falls back). -/
def get_league_name : PValue → String
  | .pint i =>
      match league_names.find? (fun p => p.1 == i) with
      | some p => p.2
      | none => "联赛" ++ toString i
  | .pstr s => "联赛" ++ s

/-- One presentable option, as `get_available_options` builds it. -/
structure OptionView where
  value : PValue
  label : String
  cache_key : String
  original_text : String
  timestamp : String
deriving DecidableEq, Repr

/-- The per-combination option construction inside `get_available_options`:
football standings need a truthy `league_id`, NBA schedules a truthy `team`,
F1 standings default the year to the current calendar year (`nowYear`); any
other domain/type combination yields nothing. -/
def buildOption (sport query_type : String) (nowYear : Int) (ck : String) (e : CacheEntry) :
    Option OptionView :=
  if query_type = "standings" ∧ sport = "football" then
    match alookup e.parameters "league_id" with
    | some lid =>
        if pvTruthy lid then some ⟨lid, get_league_name lid, ck, e.original_text, e.timestamp⟩
        else none
    | none => none
  else if query_type = "schedule" ∧ sport = "nba" then
    match alookup e.parameters "team" with
    | some tm =>
        if pvTruthy tm then some ⟨tm, tm.render ++ " 赛程", ck, e.original_text, e.timestamp⟩
        else none
    | none => none
  else if query_type = "standings" ∧ sport = "f1" then
    let yr := (alookup e.parameters "year").getD (PValue.pint nowYear)
    some ⟨PValue.pstr ("f1_" ++ yr.render), yr.render ++ "年 F1积分榜", ck, e.original_text,
      e.timestamp⟩
  else none

/-- The option list of `get_available_options` before its final sort: iterate
the domain's dict in insertion order, keep entries whose `query_type` matches
and whose `success` is truthy, and build their options. -/
def rawOptions (s : Store) (sport query_type : String) (nowYear : Int) : List OptionView :=
  match alookup s.domains sport with
  | none => []
  | some m =>
      m.filterMap (fun p =>
        if p.2.query_type = query_type ∧ p.2.success = true then
          buildOption sport query_type nowYear p.1 p.2
        else none)

/-- Insert into a timestamp-descending list, after every element whose
timestamp is strictly larger and before the first equal-or-smaller one: the
element being inserted came earlier in the original order than everything in
the list, so this keeps equal timestamps in their original relative order. -/
def insertTsDesc (x : OptionView) : List OptionView → List OptionView
  | [] => [x]
  | y :: ys => if x.timestamp < y.timestamp then y :: insertTsDesc x ys else x :: y :: ys

/-- `options.sort(key=lambda x: x.get('timestamp', ''), reverse=True)`:
Python's sort is stable and `reverse=True` keeps equal keys in list order, so
it is the (unique) timestamp-descending stable sort, embedded here as a stable
insertion sort. -/
def sortTsDesc : List OptionView → List OptionView
  | [] => []
  | x :: xs => insertTsDesc x (sortTsDesc xs)

/-- `QueryCache.get_available_options`. -/
def get_available_options (s : Store) (sport query_type : String) (nowYear : Int) :
    List OptionView :=
  sortTsDesc (rawOptions s sport query_type nowYear)

/-! ### Load-time expiry (`QueryCache._clean_expired_data`)

`_load_cache` parses the persisted JSON and runs `_clean_expired_data` over it
once before installing it.  A persisted entry's `timestamp` field can be
missing, present but rejected by `datetime.fromisoformat`, or parse to a time;
`TsField` records those three outcomes (times in epoch seconds, so that
`now - timedelta(days=d)` is `now - d * 86400`). -/

/-- The parse outcome of a persisted entry's `timestamp` field. -/
inductive TsField where
  | missing
  | unparsed (s : String)
  | parsedAt (t : Int)
deriving DecidableEq, Repr

/-- A persisted entry as the expiry sweep sees it: its `timestamp` field and
the rest of the dict, which the sweep never inspects. -/
structure RawEntry where
  ts : TsField
  payload : String
deriving DecidableEq, Repr

def secondsPerDay : Int := 86400

/-- Does the sweep keep this entry?  Mirrors the loop body of
`_clean_expired_data`: no `timestamp` key → never marked expired; a
`timestamp` that fails to parse → the bare `except` marks it expired; a parsed
time is expired exactly when it is strictly before `now - max_age_days` days. -/
def keepEntry (now maxAgeDays : Int) (e : RawEntry) : Bool :=
  match e.ts with
  | .missing => true
  | .unparsed _ => false
  | .parsedAt t => if t < now - maxAgeDays * secondsPerDay then false else true

/-- `QueryCache._clean_expired_data` (default `max_age_days = 7`): sweep the
domains `f1`, `football`, `nba` — and only those — deleting each marked key. -/
def clean_expired_data (data : List (String × List (String × RawEntry))) (now : Int)
    (maxAgeDays : Int := 7) : List (String × List (String × RawEntry)) :=
  data.map (fun dom =>
    if dom.1 = "f1" ∨ dom.1 = "football" ∨ dom.1 = "nba" then
      (dom.1, dom.2.filter (fun p => keepEntry now maxAgeDays p.2))
    else dom)

/-- The entry dict of domain `d` in persisted data (empty when absent). -/
def entriesOf (data : List (String × List (String × RawEntry))) (d : String) :
    List (String × RawEntry) :=
  (alookup data d).getD []

/-! ### The query parser (`QueryParser`)

The fixed keyword tables of `QueryParser.__init__`, in their declaration
order — Python dicts preserve insertion order, and `max(d, key=d.get)`
returns the first key attaining the maximum, so this order is the tie-break. -/

def sport_keywords : List (String × List String) :=
  [("f1", ["f1", "F1", "一级方程式", "赛车", "车手", "车队", "积分榜", "比赛结果", "排位赛"]),
   ("football", ["足球", "英超", "西甲", "德甲", "意甲", "法甲", "联赛", "积分榜", "比赛", "球队", "射手榜"]),
   ("nba", ["nba", "NBA", "篮球", "球队", "球员", "赛程", "湖人", "勇士", "凯尔特人", "库里", "詹姆斯", "杜兰特"])]

def query_types : List (String × List String) :=
  [("schedule", ["赛程", "比赛安排", "日程", "时间表"]),
   ("standings", ["积分榜", "排名", "排行榜", "榜单"]),
   ("results", ["结果", "比分", "成绩"]),
   ("teams", ["球队", "队伍", "车队"]),
   ("players", ["球员", "车手", "选手", "名单", "阵容"]),
   ("today", ["今天", "今日", "当天"]),
   ("live", ["实时", "直播", "现场"]),
   ("top_scorers", ["射手榜", "射手", "进球榜", "得分榜"]),
   ("player_stats", ["数据", "统计", "表现"])]

/-- `self.player_names` has the single domain key `'nba'`; this is its table. -/
def nba_player_names : List (String × String) :=
  [("库里", "Stephen Curry"), ("斯蒂芬库里", "Stephen Curry"),
   ("詹姆斯", "LeBron James"), ("勒布朗詹姆斯", "LeBron James"),
   ("杜兰特", "Kevin Durant"), ("凯文杜兰特", "Kevin Durant"),
   ("字母哥", "Giannis Antetokounmpo"), ("安特托昆博", "Giannis Antetokounmpo"),
   ("东契奇", "Luka Doncic"), ("卢卡东契奇", "Luka Doncic"),
   ("塔图姆", "Jayson Tatum"), ("杰森塔图姆", "Jayson Tatum"),
   ("约基奇", "Nikola Jokic"), ("尼古拉约基奇", "Nikola Jokic"),
   ("恩比德", "Joel Embiid"), ("乔尔恩比德", "Joel Embiid")]

/-- `self.team_names`: per-domain alias tables; NBA aliases map to team-name
strings, football aliases map to integer league ids. -/
def team_names : List (String × List (String × PValue)) :=
  [("nba",
    [("湖人", .pstr "Lakers"), ("湖人队", .pstr "Lakers"), ("洛杉矶湖人", .pstr "Lakers"),
     ("勇士", .pstr "Warriors"), ("勇士队", .pstr "Warriors"), ("金州勇士", .pstr "Warriors"),
     ("凯尔特人", .pstr "Celtics"), ("凯尔特人队", .pstr "Celtics"), ("波士顿凯尔特人", .pstr "Celtics"),
     ("公牛", .pstr "Bulls"), ("公牛队", .pstr "Bulls"), ("芝加哥公牛", .pstr "Bulls"),
     ("热火", .pstr "Heat"), ("热火队", .pstr "Heat"), ("迈阿密热火", .pstr "Heat"),
     ("马刺", .pstr "Spurs"), ("马刺队", .pstr "Spurs"), ("圣安东尼奥马刺", .pstr "Spurs"),
     ("火箭", .pstr "Rockets"), ("火箭队", .pstr "Rockets"), ("休斯顿火箭", .pstr "Rockets"),
     ("雷霆", .pstr "Thunder"), ("雷霆队", .pstr "Thunder"), ("俄克拉荷马雷霆", .pstr "Thunder"),
     ("快船", .pstr "Clippers"), ("快船队", .pstr "Clippers"), ("洛杉矶快船", .pstr "Clippers"),
     ("尼克斯", .pstr "Knicks"), ("尼克斯队", .pstr "Knicks"), ("纽约尼克斯", .pstr "Knicks"),
     ("篮网", .pstr "Nets"), ("篮网队", .pstr "Nets"), ("布鲁克林篮网", .pstr "Nets"),
     ("76人", .pstr "76ers"), ("76人队", .pstr "76ers"), ("费城76人", .pstr "76ers"),
     ("雄鹿", .pstr "Bucks"), ("雄鹿队", .pstr "Bucks"), ("密尔沃基雄鹿", .pstr "Bucks")]),
   ("football",
    [("英超", .pint 2021), ("西甲", .pint 2014), ("德甲", .pint 2002),
     ("意甲", .pint 2019), ("法甲", .pint 2015)])]

/-- The statistic-indicating words of the player-name override. -/
def stats_keywords : List String := ["得分", "数据", "统计", "表现", "平均", "场均"]

/-! ### Keyword scoring and candidate selection -/

/-- Sport scoring: `sum(1 for keyword in keywords if keyword.lower() in text)`
for each domain, in table order. -/
def sportScores (t : String) : List (String × Nat) :=
  sport_keywords.map (fun p => (p.1, p.2.countP (fun k => strContains t (strLower k))))

/-- Intent scoring: `sum(1 for keyword in keywords if keyword in text)` for
each query type, in table order. -/
def queryTypeScores (t : String) : List (String × Nat) :=
  query_types.map (fun p => (p.1, p.2.countP (fun k => strContains t k)))

/-- Python's `max(items, key=value)` scan from a first candidate: a later
candidate replaces the current one only when strictly greater, so the first
maximal candidate wins. -/
def pyMaxFrom (acc : String × Nat) : List (String × Nat) → String × Nat
  | [] => acc
  | y :: ys => pyMaxFrom (if acc.2 < y.2 then y else acc) ys

/-- The selection step shared by domain and intent detection: keep only
positive scores (`if score > 0`), then `max(scores, key=scores.get)`;
`none` when no candidate scored (`if sport_scores:`). -/
def pickMax (scores : List (String × Nat)) : Option String :=
  match scores.filter (fun p => decide (0 < p.2)) with
  | [] => none
  | x :: xs => some (pyMaxFrom x xs).1

def detectSport (t : String) : Option String := pickMax (sportScores t)

def detectQueryType (t : String) : Option String := pickMax (queryTypeScores t)

/-! ### Intent overrides

Each override rewrites the pending `(query_type, confidence)` pair; the
confidence is kept in exact tenths (`8` stands for the code's `0.8`, and so
on), raised with `max`, never lowered. -/

/-- Player-name override: an NBA domain with a player alias in the text turns
the intent into `player_stats` (when a statistic word also occurs) or
`players`, and raises confidence to at least 0.8. -/
def playerOverride (t : String) (sport : Option String) (qc : Option String × Nat) :
    Option String × Nat :=
  if sport == some "nba" && nba_player_names.any (fun p => strContains t p.1) then
    (some (if stats_keywords.any (fun k => strContains t k) then "player_stats" else "players"),
      max qc.2 8)
  else qc

/-- Football top-scorer override: confidence at least 0.7. -/
def scorerOverride (t : String) (sport : Option String) (qc : Option String × Nat) :
    Option String × Nat :=
  if sport == some "football" && (strContains t "射手" || strContains t "进球") then
    (some "top_scorers", max qc.2 7)
  else qc

/-- F1 constructor-standings override: confidence at least 0.9. -/
def teamsOverride (t : String) (sport : Option String) (qc : Option String × Nat) :
    Option String × Nat :=
  if sport == some "f1" && strContains t "车队" && strContains t "积分榜" then
    (some "teams", max qc.2 9)
  else qc

/-- F1 driver-standings override: confidence at least 0.9. -/
def driversOverride (t : String) (sport : Option String) (qc : Option String × Nat) :
    Option String × Nat :=
  if sport == some "f1" && strContains t "车手" && strContains t "积分榜" then
    (some "standings", max qc.2 9)
  else qc

/-- Confidence (in tenths) after the two detection steps: 0.3 for a detected
domain plus 0.3 for a detected intent. -/
def baseConf10 (t : String) : Nat :=
  (if (detectSport t).isSome then 3 else 0) + (if (detectQueryType t).isSome then 3 else 0)

/-- The `(query_type, confidence)` state after the first three overrides
(player names, football top scorers, F1 constructor standings). -/
def beforeDrivers (t : String) : Option String × Nat :=
  teamsOverride t (detectSport t)
    (scorerOverride t (detectSport t)
      (playerOverride t (detectSport t) (detectQueryType t, baseConf10 t)))

/-- The `(query_type, confidence)` state after all four overrides. -/
def afterOverrides (t : String) : Option String × Nat :=
  driversOverride t (detectSport t) (beforeDrivers t)

/-! ### Parameter extraction (`QueryParser._extract_parameters`) -/

/-- The numeric value of a digit run. -/
def digitsVal (l : List Char) : Nat := l.foldl (fun a c => 10 * a + (c.toNat - 48)) 0

/-- `re.search(r'(\d{4})年?', text)`: the leftmost run of four digits (the
optional `年` suffix does not affect the captured group). -/
def findYear : List Char → Option Nat
  | a :: b :: c :: d :: rest =>
      if a.isDigit && b.isDigit && c.isDigit && d.isDigit then some (digitsVal [a, b, c, d])
      else findYear (b :: c :: d :: rest)
  | _ => none

/-- First alias of the table occurring in the text (the loops over
`player_names[sport]` / `team_names[sport]` with their `break`). -/
def findAlias {α : Type} (table : List (String × α)) (t : String) : Option α :=
  match table.find? (fun p => strContains t p.1) with
  | some p => some p.2
  | none => none

/-- The digit prefix of a char list, and the rest. -/
def spanDigits : List Char → List Char × List Char
  | [] => ([], [])
  | c :: cs =>
      if c.isDigit then
        let s := spanDigits cs
        (c :: s.1, s.2)
      else ([], c :: cs)

/-- Does `re.search(r'第?(\d+)轮', text)` match starting exactly here?  An
optional `第`, a maximal digit run (greedy `\d+` cannot backtrack into a
successful match since `轮` is not a digit), then `轮`. -/
def roundAt (l : List Char) : Option Nat :=
  let l' := match l with
    | c :: rest => if c == '第' then rest else l
    | [] => l
  match spanDigits l' with
  | ([], _) => none
  | (ds, r :: _) => if r == '轮' then some (digitsVal ds) else none
  | (_, []) => none

/-- The leftmost match of `第?(\d+)轮`. -/
def findRound : List Char → Option Nat
  | [] => none
  | c :: rest =>
      match roundAt (c :: rest) with
      | some n => some n
      | none => findRound rest

/-- The parameter dict built by `_extract_parameters`: each key present only
when detected. -/
structure QueryParams where
  year : Option Nat
  player : Option String
  team : Option PValue
  league_id : Option Int
  round : Option Nat
deriving DecidableEq, Repr

/-- The empty parameter dict. -/
def noParams : QueryParams := ⟨none, none, none, none, none⟩

/-- Python truthiness of the parameter dict (`if result['parameters']:`). -/
def QueryParams.isEmpty (p : QueryParams) : Bool :=
  p.year.isNone && p.player.isNone && p.team.isNone && p.league_id.isNone && p.round.isNone

/-- `QueryParser._extract_parameters`: year from the first four-digit run;
player alias only for a domain with a player table (`nba`); team/league alias
only for a domain with a team table, an int value under the `football` domain
landing in `league_id` and any other value in `team`; round from `第?(\d+)轮`. -/
def extract_parameters (t : String) (sport : Option String) : QueryParams :=
  let year := findYear t.data
  let player :=
    match sport with
    | some "nba" => findAlias nba_player_names t
    | _ => none
  let tl : Option PValue × Option Int :=
    match sport with
    | some s =>
        match alookup team_names s with
        | some tbl =>
            match findAlias tbl t with
            | some (.pint i) =>
                if s = "football" then (none, some i) else (some (.pint i), none)
            | some (.pstr nm) => (some (.pstr nm), none)
            | none => (none, none)
        | none => (none, none)
    | none => (none, none)
  ⟨year, player, tl.1, tl.2, findRound t.data⟩

/-! ### `QueryParser.parse_query` -/

/-- The exact rational a tenths count denotes; the Python code accumulates
the IEEE floats `0.3`, `0.8`, `0.7`, `0.9`, `0.4`, which this development
reads as the exact rationals they print as.  All of them are whole tenths,
so the accumulation is computed exactly in `Nat` tenths and converted here. -/
def tenths (n : Nat) : ℚ := (n : ℚ) / 10

/-- The descriptor returned by `parse_query`. -/
structure ParseResult where
  sport : Option String
  query_type : Option String
  parameters : QueryParams
  confidence : ℚ
  original_text : String
deriving Repr

/-- `QueryParser.parse_query`: normalize, detect domain and intent (0.3 each),
run the four overrides in order, extract parameters, and add 0.4 when any
parameter was found.  Total — it never fails. -/
def parse_query (text : String) : ParseResult :=
  let t := normalize text
  let qc := afterOverrides t
  let ps := extract_parameters t (detectSport t)
  ⟨detectSport t, qc.1, ps, tenths (if ps.isEmpty then qc.2 else qc.2 + 4), t⟩

/-! ### Association-list lemmas -/

theorem alookup_aupdate_self {α : Type} (l : List (String × α)) (k : String) (v : α) :
    alookup (aupdate l k v) k = some v := by
  induction l with
  | nil => simp [aupdate, alookup]
  | cons p rest ih =>
      by_cases h : p.1 = k
      · simp [aupdate, h, alookup]
      · simp [aupdate, h, alookup, ih]

theorem alookup_aupdate_ne {α : Type} (l : List (String × α)) (k k' : String) (v : α)
    (h : k' ≠ k) : alookup (aupdate l k v) k' = alookup l k' := by
  induction l with
  | nil =>
      have : k ≠ k' := fun he => h he.symm
      simp [aupdate, alookup, this]
  | cons p rest ih =>
      by_cases hp : p.1 = k
      · have : k ≠ k' := fun he => h he.symm
        simp [aupdate, hp, alookup, this]
      · simp [aupdate, hp, alookup, ih]

theorem aupdate_aupdate_self {α : Type} (l : List (String × α)) (k : String) (v w : α) :
    aupdate (aupdate l k v) k w = aupdate l k w := by
  induction l with
  | nil => simp [aupdate]
  | cons p rest ih =>
      by_cases h : p.1 = k
      · simp [aupdate, h]
      · simp [aupdate, h, ih]

theorem data_empty : ("" : String).data = [] := rfl

/-! ### Claim C1: cache-key determinism -/

/-- C1.  Cache-key determinism: for every `queryType` and parameter mapping,
the cache key computed by `store` is `queryType` concatenated with the
fragment `name_value` for each of `league_id`, `team`, `year`, `round` — in
that fixed order, only when present — joined by `"_"` (the `specCacheKey`
reading of the specification); hence two parameter mappings with the same
name-value pairs in different insertion orders yield the identical key. -/
theorem cacheKey_deterministic (query_type : String) (ps1 ps2 : List (String × PValue))
    (h : ∀ n ∈ key_params, alookup ps1 n = alookup ps2 n) :
    generate_cache_key query_type ps1 = specCacheKey query_type ps1 ∧
    generate_cache_key query_type ps1 = generate_cache_key query_type ps2 ∧
    ∀ (s : Store) (sport : String) (rd : ResultData) (otext now : String),
      (store_query_result s sport query_type ps1 rd otext now).2 =
        generate_cache_key query_type ps1 := by
  have h1 := h "league_id" (by simp [key_params])
  have h2 := h "team" (by simp [key_params])
  have h3 := h "year" (by simp [key_params])
  have h4 := h "round" (by simp [key_params])
  refine ⟨?_, ?_, fun _ _ _ _ _ => rfl⟩
  · unfold generate_cache_key specCacheKey keyFrag key_params
    simp only [List.filterMap_cons, List.filterMap_nil]
    cases alookup ps1 "league_id" <;> cases alookup ps1 "team" <;>
      cases alookup ps1 "year" <;> cases alookup ps1 "round" <;>
      · apply String.ext
        simp [joinSep, data_empty, String.data_append, List.append_assoc]
  · unfold generate_cache_key key_params
    simp only [List.filterMap_cons, List.filterMap_nil]
    rw [h1, h2, h3, h4]

/-- C1, witnessed at the specification's own example: `standings` with
`league_id`/`year` supplied in the two opposite insertion orders. -/
theorem cacheKey_deterministic_witness :
    generate_cache_key "standings" [("league_id", PValue.pint 2021), ("year", PValue.pint 2024)] =
      generate_cache_key "standings"
        [("year", PValue.pint 2024), ("league_id", PValue.pint 2021)] :=
  (cacheKey_deterministic "standings"
    [("league_id", PValue.pint 2021), ("year", PValue.pint 2024)]
    [("year", PValue.pint 2024), ("league_id", PValue.pint 2021)] (by decide)).2.1

/-! ### Claim C2: store/get round-trip -/

/-- C2.  Store/get round-trip: immediately after
`store(domain, queryType, parameters, resultPayload, originalText)` returns
key `k`, `get(domain, k)` returns an entry whose `result_data`, `parameters`
and `original_text` are exactly what was stored, and whose `timestamp` is the
time the store itself recorded. -/
theorem store_get_roundtrip (s : Store) (sport query_type : String)
    (ps : List (String × PValue)) (rd : ResultData) (otext now : String) :
    ∃ e : CacheEntry,
      get_query_result (store_query_result s sport query_type ps rd otext now).1 sport
          (store_query_result s sport query_type ps rd otext now).2 = some e ∧
      e.result_data = rd ∧ e.parameters = ps ∧ e.original_text = otext ∧ e.timestamp = now := by
  refine ⟨mkCacheEntry query_type ps rd otext now, ?_, rfl, rfl, rfl, rfl⟩
  simp [store_query_result, get_query_result, saveCache, alookup_aupdate_self]

/-! ### Claim C10: store never fails, creating the domain namespace on demand -/

/-- C10.  Storing under a domain absent from the store (such as one outside
the three configured domains) does not fail: `store` creates a fresh mapping
for that domain holding exactly the new entry under the computed key, and
returns that key. -/
theorem store_creates_namespace (s : Store) (sport query_type : String)
    (ps : List (String × PValue)) (rd : ResultData) (otext now : String)
    (habs : alookup s.domains sport = none) :
    (store_query_result s sport query_type ps rd otext now).2 =
      generate_cache_key query_type ps ∧
    alookup (store_query_result s sport query_type ps rd otext now).1.domains sport =
      some [(generate_cache_key query_type ps, mkCacheEntry query_type ps rd otext now)] := by
  refine ⟨rfl, ?_⟩
  simp [store_query_result, saveCache, habs, aupdate, alookup_aupdate_self]

/-- C10, witnessed at a domain (`cricket`) that is not among the configured
three and absent from the freshly created store. -/
theorem store_creates_namespace_witness :
    (store_query_result (freshStore "t0") "cricket" "standings" [("team", PValue.pstr "India")]
        ⟨some true, "payload"⟩ "text" "t1").2 =
      generate_cache_key "standings" [("team", PValue.pstr "India")] ∧
    alookup (store_query_result (freshStore "t0") "cricket" "standings"
        [("team", PValue.pstr "India")] ⟨some true, "payload"⟩ "text" "t1").1.domains "cricket" =
      some [(generate_cache_key "standings" [("team", PValue.pstr "India")],
        mkCacheEntry "standings" [("team", PValue.pstr "India")] ⟨some true, "payload"⟩
          "text" "t1")] :=
  store_creates_namespace (freshStore "t0") "cricket" "standings"
    [("team", PValue.pstr "India")] ⟨some true, "payload"⟩ "text" "t1" (by decide)

/-! ### Claim C8: clear with a domain is framed and idempotent -/

/-- C8.  For a (truthy) domain present in the store, `clear(domain)` empties
exactly that domain's mapping, leaves every other domain's mapping unchanged,
and running it a second time leaves all domain mappings exactly as after the
first run. -/
theorem clear_domain_frame_idempotent (s : Store) (d n1 n2 : String) (hne : d ≠ "")
    (hpres : (alookup s.domains d).isSome) :
    alookup (clear_cache s (some d) n1).domains d = some [] ∧
    (∀ d', d' ≠ d → alookup (clear_cache s (some d) n1).domains d' = alookup s.domains d') ∧
    (clear_cache (clear_cache s (some d) n1) (some d) n2).domains =
      (clear_cache s (some d) n1).domains := by
  have h1 : (clear_cache s (some d) n1).domains = aupdate s.domains d [] := by
    simp [clear_cache, saveCache, hne, hpres]
  refine ⟨?_, fun d' hd' => ?_, ?_⟩
  · rw [h1]; exact alookup_aupdate_self _ _ _
  · rw [h1]; exact alookup_aupdate_ne _ _ _ _ hd'
  · have h3 : clear_cache s (some d) n1 = ⟨aupdate s.domains d [], n1⟩ := by
      simp [clear_cache, saveCache, hpres, hne]
    have h4 : (alookup (aupdate s.domains d []) d).isSome := by
      rw [alookup_aupdate_self]; rfl
    rw [h3]
    simp [clear_cache, saveCache, hne, h4, aupdate_aupdate_self]

/-- C8, witnessed on a store holding one `f1` entry and one `nba` entry:
clearing `f1` empties it, leaves `nba` untouched, and is idempotent. -/
theorem clear_domain_frame_idempotent_witness :
    alookup (clear_cache
        ⟨[("f1", [("k1", mkCacheEntry "standings" [] ⟨some true, "p"⟩ "o" "t")]),
          ("nba", [("k2", mkCacheEntry "schedule" [] ⟨some true, "q"⟩ "o2" "t2")])], "m"⟩
        (some "f1") "n1").domains "f1" = some [] ∧
    alookup (clear_cache
        ⟨[("f1", [("k1", mkCacheEntry "standings" [] ⟨some true, "p"⟩ "o" "t")]),
          ("nba", [("k2", mkCacheEntry "schedule" [] ⟨some true, "q"⟩ "o2" "t2")])], "m"⟩
        (some "f1") "n1").domains "nba" =
      some [("k2", mkCacheEntry "schedule" [] ⟨some true, "q"⟩ "o2" "t2")] := by
  have h := clear_domain_frame_idempotent
    ⟨[("f1", [("k1", mkCacheEntry "standings" [] ⟨some true, "p"⟩ "o" "t")]),
      ("nba", [("k2", mkCacheEntry "schedule" [] ⟨some true, "q"⟩ "o2" "t2")])], "m"⟩
    "f1" "n1" "n2" (by decide) (by decide)
  exact ⟨h.1, (h.2.1 "nba" (by decide)).trans (by decide)⟩

/-! ### Claim C3: load-time expiry

The claim as frozen says an entry with a *missing* timestamp is also removed;
the code's loop only marks entries that *have* a `timestamp` key
(`if isinstance(value, dict) and 'timestamp' in value`), so a missing
timestamp is kept — refuted by `clean_missing_timestamp_kept` below, and the
sweep also only visits the three configured domains.  The amended behaviour
is proved as `clean_expired_amended`. -/

theorem alookup_clean (data : List (String × List (String × RawEntry)))
    (now maxAgeDays : Int) (d : String) :
    alookup (clean_expired_data data now maxAgeDays) d =
      (alookup data d).map (fun es =>
        if d = "f1" ∨ d = "football" ∨ d = "nba" then
          es.filter (fun q => keepEntry now maxAgeDays q.2)
        else es) := by
  induction data with
  | nil => rfl
  | cons p rest ih =>
      simp only [clean_expired_data, List.map_cons] at ih ⊢
      by_cases hd : p.1 = d
      · subst hd
        by_cases hc : p.1 = "f1" ∨ p.1 = "football" ∨ p.1 = "nba"
        · simp [alookup, hc]
        · simp [alookup, hc]
      · by_cases hc : p.1 = "f1" ∨ p.1 = "football" ∨ p.1 = "nba"
        · simp [alookup, hc, hd, ih]
        · simp [alookup, hc, hd, ih]

theorem keepEntry_iff (now m : Int) (e : RawEntry) :
    keepEntry now m e = true ↔
      (∀ u, e.ts ≠ TsField.unparsed u) ∧
      (∀ t, e.ts = TsField.parsedAt t → ¬ t < now - m * secondsPerDay) := by
  obtain ⟨ts, pl⟩ := e
  cases ts with
  | missing =>
      constructor
      · intro _
        exact ⟨(fun u hu => by cases hu), (fun t ht => by cases ht)⟩
      · intro _
        rfl
  | unparsed s =>
      constructor
      · intro hk
        exact absurd hk (by simp [keepEntry])
      · rintro ⟨h1, -⟩
        exact absurd rfl (h1 s)
  | parsedAt t =>
      by_cases hlt : t < now - m * secondsPerDay
      · constructor
        · intro hk
          have hf : keepEntry now m ⟨TsField.parsedAt t, pl⟩ = false := by
            simp [keepEntry, hlt]
          rw [hf] at hk
          cases hk
        · rintro ⟨-, h2⟩
          exact absurd hlt (h2 t rfl)
      · constructor
        · intro _
          exact ⟨(fun u hu => by cases hu), (fun t' ht' => by cases ht'; exact hlt)⟩
        · intro _
          simp [keepEntry, hlt]

/-- C3, corrected.  For each of the three swept domains (`f1`, `football`,
`nba`), an entry survives the load-time expiry sweep exactly when its
timestamp is not present-but-unparseable and does not parse to a time
strictly older than `maxAge` days before `now`; in particular an entry with a
parseable timestamp not older than `maxAge` is kept, a parseable-and-older or
unparseable one is removed, and (contrary to the frozen claim) one with no
timestamp at all is kept. -/
theorem clean_expired_amended (data : List (String × List (String × RawEntry)))
    (now maxAgeDays : Int) (d k : String) (e : RawEntry)
    (hd : d = "f1" ∨ d = "football" ∨ d = "nba") :
    (k, e) ∈ entriesOf (clean_expired_data data now maxAgeDays) d ↔
      (k, e) ∈ entriesOf data d ∧
        (∀ u, e.ts ≠ TsField.unparsed u) ∧
        (∀ t, e.ts = TsField.parsedAt t → ¬ t < now - maxAgeDays * secondsPerDay) := by
  unfold entriesOf
  rw [alookup_clean]
  cases halk : alookup data d with
  | none => simp
  | some es =>
      simp only [Option.map_some', Option.getD_some, if_pos hd]
      rw [List.mem_filter]
      exact and_congr_right fun _ => keepEntry_iff now maxAgeDays e

/-- C3's counterexample to the claim as frozen: an `f1` entry whose dict has
no `timestamp` key survives a fresh sweep untouched (`now` ten days after
epoch, default seven-day `maxAge`), where the claim requires its removal. -/
theorem clean_missing_timestamp_kept :
    entriesOf (clean_expired_data [("f1", [("k", ⟨TsField.missing, "r"⟩)])] 864000 7) "f1" =
      [("k", ⟨TsField.missing, "r"⟩)] := by decide

/-- C3, witnessed: with `now` at ten days and the default seven-day cutoff, a
three-day-old entry (`t = 600000`) is kept by the sweep. -/
theorem clean_expired_amended_witness :
    ("b", RawEntry.mk (TsField.parsedAt 600000) "y") ∈
      entriesOf (clean_expired_data
        [("f1", [("a", ⟨TsField.parsedAt 0, "x"⟩), ("b", ⟨TsField.parsedAt 600000, "y"⟩),
                 ("c", ⟨TsField.unparsed "zz", "z"⟩), ("d", ⟨TsField.missing, "w"⟩)])]
        864000 7) "f1" :=
  (clean_expired_amended
    [("f1", [("a", ⟨TsField.parsedAt 0, "x"⟩), ("b", ⟨TsField.parsedAt 600000, "y"⟩),
             ("c", ⟨TsField.unparsed "zz", "z"⟩), ("d", ⟨TsField.missing, "w"⟩)])]
    864000 7 "f1" "b" (RawEntry.mk (TsField.parsedAt 600000) "y") (Or.inl rfl)).mpr
    ⟨by decide, (fun u h => by cases h), (fun t ht => by cases ht; decide)⟩

/-! ### The selection step: Python's first-maximum semantics

`max(scores, key=scores.get)` over the dict of positive scores returns the
first key attaining the maximal score.  The lemmas below characterise
`pickMax` over an arbitrary score list: the selected candidate has a positive
score, every candidate scores at most as much, and every candidate declared
earlier scores strictly less. -/

theorem pyMaxFrom_spec (l : List (String × Nat)) :
    ∀ acc : String × Nat,
      (pyMaxFrom acc l = acc ∧ ∀ p ∈ l, p.2 ≤ acc.2) ∨
      (∃ pre post, l = pre ++ pyMaxFrom acc l :: post ∧ acc.2 < (pyMaxFrom acc l).2 ∧
        (∀ p ∈ pre, p.2 < (pyMaxFrom acc l).2) ∧ (∀ p ∈ post, p.2 ≤ (pyMaxFrom acc l).2)) := by
  induction l with
  | nil => exact fun acc => Or.inl ⟨rfl, by simp⟩
  | cons y ys ih =>
      intro acc
      by_cases hy : acc.2 < y.2
      · have hstep : pyMaxFrom acc (y :: ys) = pyMaxFrom y ys := by
          simp [pyMaxFrom, hy]
        rcases ih y with ⟨h1, h2⟩ | ⟨pre, post, heq, hacc, hpre, hpost⟩
        · refine Or.inr ⟨[], ys, ?_, ?_, ?_, ?_⟩
          · rw [hstep, h1]; rfl
          · rw [hstep, h1]; exact hy
          · simp
          · rw [hstep, h1]; exact h2
        · refine Or.inr ⟨y :: pre, post, ?_, ?_, ?_, ?_⟩
          · rw [hstep, List.cons_append, ← heq]
          · rw [hstep]; exact lt_trans hy hacc
          · rw [hstep]
            intro p hp
            rcases List.mem_cons.1 hp with hpy | hpp
            · subst hpy; exact hacc
            · exact hpre p hpp
          · rw [hstep]; exact hpost
      · have hstep : pyMaxFrom acc (y :: ys) = pyMaxFrom acc ys := by
          simp [pyMaxFrom, hy]
        rcases ih acc with ⟨h1, h2⟩ | ⟨pre, post, heq, hacc, hpre, hpost⟩
        · refine Or.inl ⟨by rw [hstep, h1], ?_⟩
          intro p hp
          rcases List.mem_cons.1 hp with hpy | hpp
          · subst hpy; exact Nat.le_of_not_lt hy
          · exact h2 p hpp
        · refine Or.inr ⟨y :: pre, post, ?_, ?_, ?_, ?_⟩
          · rw [hstep, List.cons_append, ← heq]
          · rw [hstep]; exact hacc
          · rw [hstep]
            intro p hp
            rcases List.mem_cons.1 hp with hpy | hpp
            · subst hpy; exact lt_of_le_of_lt (Nat.le_of_not_lt hy) hacc
            · exact hpre p hpp
          · rw [hstep]; exact hpost

theorem filter_cons_decomp {α : Type} {p : α → Bool} {l : List α} {x : α} {xs : List α}
    (h : l.filter p = x :: xs) :
    ∃ pre rest, l = pre ++ x :: rest ∧ (∀ a ∈ pre, p a = false) ∧ p x = true ∧
      xs = rest.filter p := by
  induction l with
  | nil => cases h
  | cons a l' ih =>
      by_cases ha : p a = true
      · rw [List.filter_cons_of_pos ha] at h
        obtain ⟨rfl, rfl⟩ : a = x ∧ l'.filter p = xs := ⟨(List.cons.injEq _ _ _ _ ▸ h).1,
          (List.cons.injEq _ _ _ _ ▸ h).2⟩
        exact ⟨[], l', by simp, by simp, ha, rfl⟩
      · rw [List.filter_cons_of_neg (by simpa using ha)] at h
        obtain ⟨pre, rest, hl, hpre, hx, hxs⟩ := ih h
        refine ⟨a :: pre, rest, by rw [hl, List.cons_append], ?_, hx, hxs⟩
        intro b hb
        rcases List.mem_cons.1 hb with rfl | hbp
        · simpa using ha
        · exact hpre b hbp

theorem filter_middle_decomp {α : Type} {p : α → Bool} {l ys zs : List α} {y : α}
    (h : l.filter p = ys ++ y :: zs) :
    ∃ l1 l2, l = l1 ++ y :: l2 ∧ l1.filter p = ys ∧ l2.filter p = zs ∧ p y = true := by
  induction l generalizing ys with
  | nil =>
      rw [List.filter_nil] at h
      cases ys <;> cases h
  | cons a l' ih =>
      by_cases ha : p a = true
      · rw [List.filter_cons_of_pos ha] at h
        cases ys with
        | nil =>
            obtain ⟨rfl, h2⟩ : a = y ∧ l'.filter p = zs := ⟨(List.cons.injEq _ _ _ _ ▸ h).1,
              (List.cons.injEq _ _ _ _ ▸ h).2⟩
            exact ⟨[], l', by simp, by simp, h2, ha⟩
        | cons b ys' =>
            obtain ⟨rfl, h2⟩ : a = b ∧ l'.filter p = ys' ++ y :: zs :=
              ⟨(List.cons.injEq _ _ _ _ ▸ h).1, (List.cons.injEq _ _ _ _ ▸ h).2⟩
            obtain ⟨l1, l2, hl, h1, hz, hy⟩ := ih h2
            exact ⟨a :: l1, l2, by rw [hl, List.cons_append], by
              rw [List.filter_cons_of_pos ha, h1], hz, hy⟩
      · rw [List.filter_cons_of_neg (by simpa using ha)] at h
        obtain ⟨l1, l2, hl, h1, hz, hy⟩ := ih h
        exact ⟨a :: l1, l2, by rw [hl, List.cons_append], by
          rw [List.filter_cons_of_neg (by simpa using ha), h1], hz, hy⟩

/-- The selection invariant: a selected candidate scores positively, no
candidate scores more, and every candidate listed before it scores strictly
less (the declared-first tie-break); no selection happens exactly when no
candidate scores positively. -/
theorem pickMax_spec (scores : List (String × Nat)) :
    (pickMax scores = none → ∀ p ∈ scores, p.2 = 0) ∧
    ((∀ p ∈ scores, p.2 = 0) → pickMax scores = none) ∧
    (∀ s, pickMax scores = some s →
      ∃ pre v post, scores = pre ++ (s, v) :: post ∧ 0 < v ∧
        (∀ p ∈ pre, p.2 < v) ∧ (∀ p ∈ post, p.2 ≤ v)) := by
  refine ⟨?_, ?_, ?_⟩
  · intro hn p hp
    unfold pickMax at hn
    cases hf : scores.filter (fun p => decide (0 < p.2)) with
    | nil =>
        have := List.filter_eq_nil_iff.1 hf p hp
        simpa using this
    | cons x xs => rw [hf] at hn; cases hn
  · intro hz
    unfold pickMax
    cases hf : scores.filter (fun p => decide (0 < p.2)) with
    | nil => rfl
    | cons x xs =>
        have hx : x ∈ scores.filter (fun p => decide (0 < p.2)) := by rw [hf]; simp
        have := List.of_mem_filter hx
        have hx0 := hz x (List.mem_of_mem_filter hx)
        simp [hx0] at this
  · intro s hs
    unfold pickMax at hs
    cases hf : scores.filter (fun p => decide (0 < p.2)) with
    | nil => rw [hf] at hs; cases hs
    | cons x xs =>
        rw [hf] at hs
        obtain ⟨pre0, rest, hl, hpre0, hxpos, hxs⟩ := filter_cons_decomp hf
        subst hxs
        have hr : (pyMaxFrom x (rest.filter (fun p => decide (0 < p.2)))).1 = s := by
          simpa using hs
        have hxpos' : 0 < x.2 := by simpa using hxpos
        rcases pyMaxFrom_spec (rest.filter (fun p => decide (0 < p.2))) x with
          ⟨h1, h2⟩ | ⟨pre1, post1, heq, hacc, hpre1, hpost1⟩
        · -- the first positive candidate is already maximal
          refine ⟨pre0, x.2, rest, ?_, hxpos', ?_, ?_⟩
          · rw [hl, ← hr, h1]
          · intro p hp
            have hp0 := hpre0 p hp
            have hp0' : ¬ 0 < p.2 := by simpa using hp0
            omega
          · intro p hp
            by_cases hppos : 0 < p.2
            · have hmem : p ∈ rest.filter (fun p => decide (0 < p.2)) :=
                List.mem_filter.2 ⟨hp, by simpa using hppos⟩
              exact h2 p hmem
            · omega
        · -- the maximum sits further along the filtered tail
          set r := pyMaxFrom x (rest.filter (fun p => decide (0 < p.2))) with hrdef
          obtain ⟨l1, l2, hrest, hfl1, hfl2, hpy⟩ := filter_middle_decomp heq
          have hr2 : 0 < r.2 := lt_trans hxpos' hacc
          refine ⟨pre0 ++ x :: l1, r.2, l2, ?_, hr2, ?_, ?_⟩
          · rw [hl, hrest, ← hr]
            simp [List.append_assoc]
          · intro p hp
            rcases List.mem_append.1 hp with hp0 | hp1
            · have hp0' : ¬ 0 < p.2 := by simpa using hpre0 p hp0
              omega
            · rcases List.mem_cons.1 hp1 with rfl | hpl1
              · exact hacc
              · by_cases hppos : 0 < p.2
                · have hmem : p ∈ l1.filter (fun p => decide (0 < p.2)) :=
                    List.mem_filter.2 ⟨hpl1, by simpa using hppos⟩
                  rw [hfl1] at hmem
                  exact hpre1 p hmem
                · omega
          · intro p hp
            by_cases hppos : 0 < p.2
            · have hmem : p ∈ l2.filter (fun p => decide (0 < p.2)) :=
                List.mem_filter.2 ⟨hp, by simpa using hppos⟩
              rw [hfl2] at hmem
              exact hpost1 p hmem
            · omega

/-! ### Projections of `parse_query` and facts about `tenths` -/

theorem parse_query_sport (text : String) :
    (parse_query text).sport = detectSport (normalize text) := rfl

theorem parse_query_qt (text : String) :
    (parse_query text).query_type = (afterOverrides (normalize text)).1 := rfl

theorem parse_query_params (text : String) :
    (parse_query text).parameters =
      extract_parameters (normalize text) (detectSport (normalize text)) := rfl

theorem parse_query_conf (text : String) :
    (parse_query text).confidence =
      tenths
        (if (extract_parameters (normalize text) (detectSport (normalize text))).isEmpty then
          (afterOverrides (normalize text)).2
        else (afterOverrides (normalize text)).2 + 4) := rfl

theorem tenths_le_tenths {a b : Nat} (h : a ≤ b) : tenths a ≤ tenths b := by
  unfold tenths
  exact (div_le_div_iff_of_pos_right (by norm_num)).2 (by exact_mod_cast h)

theorem tenths_nonneg (n : Nat) : 0 ≤ tenths n := by
  unfold tenths
  positivity

/-! ### Claim C4: domain/intent scoring and tie-break -/

/-- C4.  For every input text, domain detection scores each domain by the
number of its keywords occurring (case-insensitively) in the normalized text
and selects the candidate with the highest positive count, earliest-declared
candidate winning ties; likewise for intent detection; with no positive score
the field stays unset.  The final conjunct records that every intent keyword
is lower-case-invariant, so the code's plain `keyword in text` test on the
lower-cased text is a case-insensitive match there too.  The selection is a
pure function of the text, hence deterministic. -/
theorem domain_intent_selection (text : String) :
    ((parse_query text).sport = detectSport (normalize text)) ∧
    (∀ s, detectSport (normalize text) = some s →
      ∃ pre v post, sportScores (normalize text) = pre ++ (s, v) :: post ∧ 0 < v ∧
        (∀ p ∈ pre, p.2 < v) ∧ (∀ p ∈ post, p.2 ≤ v)) ∧
    ((∀ p ∈ sportScores (normalize text), p.2 = 0) → detectSport (normalize text) = none) ∧
    (∀ q, detectQueryType (normalize text) = some q →
      ∃ pre v post, queryTypeScores (normalize text) = pre ++ (q, v) :: post ∧ 0 < v ∧
        (∀ p ∈ pre, p.2 < v) ∧ (∀ p ∈ post, p.2 ≤ v)) ∧
    ((∀ p ∈ queryTypeScores (normalize text), p.2 = 0) →
      detectQueryType (normalize text) = none) ∧
    (∀ p ∈ query_types, ∀ k ∈ p.2, strLower k = k) :=
  ⟨rfl, fun s hs => (pickMax_spec _).2.2 s hs, (pickMax_spec _).2.1,
    fun q hq => (pickMax_spec _).2.2 q hq, (pickMax_spec _).2.1, by decide⟩

/-! ### Claim C7: parse totality and the all-unset descriptor -/

/-- C7.  `parse_query` is a total function (it never fails, by construction of
the embedding); and whenever no domain keyword and no intent keyword occurs in
the normalized text and no parameter is extracted, the returned descriptor has
domain unset, intent unset, an empty parameter mapping and confidence exactly
0.0. -/
theorem parse_unmatched_all_unset (text : String)
    (hs : ∀ p ∈ sport_keywords, ∀ k ∈ p.2, strContains (normalize text) (strLower k) = false)
    (hq : ∀ p ∈ query_types, ∀ k ∈ p.2, strContains (normalize text) k = false)
    (hp : extract_parameters (normalize text) none = noParams) :
    (parse_query text).sport = none ∧ (parse_query text).query_type = none ∧
    (parse_query text).parameters = noParams ∧ (parse_query text).confidence = 0 := by
  have hsz : ∀ p ∈ sportScores (normalize text), p.2 = 0 := by
    intro p hp'
    rcases List.mem_map.1 hp' with ⟨q, hq', rfl⟩
    simp only [List.countP_eq_zero]
    intro k hk
    simp [hs q hq' k hk]
  have hqz : ∀ p ∈ queryTypeScores (normalize text), p.2 = 0 := by
    intro p hp'
    rcases List.mem_map.1 hp' with ⟨q, hq', rfl⟩
    simp only [List.countP_eq_zero]
    intro k hk
    simp [hq q hq' k hk]
  have hds : detectSport (normalize text) = none := (pickMax_spec _).2.1 hsz
  have hdq : detectQueryType (normalize text) = none := (pickMax_spec _).2.1 hqz
  have hov : afterOverrides (normalize text) =
      (detectQueryType (normalize text), baseConf10 (normalize text)) := by
    unfold afterOverrides beforeDrivers driversOverride teamsOverride scorerOverride
      playerOverride
    rw [hds]
    simp
  have hb : baseConf10 (normalize text) = 0 := by
    unfold baseConf10
    rw [hds, hdq]
    rfl
  have hps : extract_parameters (normalize text) (detectSport (normalize text)) = noParams := by
    rw [hds]
    exact hp
  refine ⟨by rw [parse_query_sport, hds], ?_, by rw [parse_query_params, hps], ?_⟩
  · rw [parse_query_qt, hov]
    exact hdq
  · rw [parse_query_conf, hps, hov, hb]
    norm_num [tenths, QueryParams.isEmpty, noParams]

/-- C7, witnessed at the specification's example of a non-matching utterance. -/
theorem parse_unmatched_all_unset_witness :
    (parse_query "随便说点什么").sport = none ∧
    (parse_query "随便说点什么").query_type = none ∧
    (parse_query "随便说点什么").parameters = noParams ∧
    (parse_query "随便说点什么").confidence = 0 :=
  parse_unmatched_all_unset "随便说点什么" (by decide) (by decide) (by decide)

/-! ### Claim C5: the motorsport drivers-standings override -/

/-- C5.  Whenever the detected domain is `f1` and the normalized text contains
both the drivers indicator `车手` and the standings indicator `积分榜`, the
returned intent is `standings` and the returned confidence is exactly
`max(confidence before this override, 0.9)` — plus the 0.4 parameter bonus the
code adds afterwards when a parameter was extracted — and in any case at
least 0.9. -/
theorem drivers_standings_override (text : String)
    (hsport : detectSport (normalize text) = some "f1")
    (hdrv : strContains (normalize text) "车手" = true)
    (hstd : strContains (normalize text) "积分榜" = true) :
    (parse_query text).query_type = some "standings" ∧
    (parse_query text).confidence =
      tenths (max (beforeDrivers (normalize text)).2 9 +
        (if (extract_parameters (normalize text) (detectSport (normalize text))).isEmpty then 0
         else 4)) ∧
    tenths 9 ≤ (parse_query text).confidence := by
  have hd : afterOverrides (normalize text) =
      (some "standings", max (beforeDrivers (normalize text)).2 9) := by
    unfold afterOverrides driversOverride
    rw [hsport]
    simp [hdrv, hstd]
  refine ⟨by rw [parse_query_qt, hd], ?_, ?_⟩
  · rw [parse_query_conf, hd]
    by_cases he :
        (extract_parameters (normalize text) (detectSport (normalize text))).isEmpty = true
    · rw [if_pos he, if_pos he]
      simp
    · rw [if_neg he, if_neg he]
  · rw [parse_query_conf, hd]
    apply tenths_le_tenths
    have h9 : 9 ≤ max (beforeDrivers (normalize text)).2 9 := le_max_right _ _
    split <;> omega

/-- C5, witnessed at the specification's concrete scenario
`parse("查询F1车手积分榜")`: motorsport domain, standings intent, confidence at
least 0.9 (here exactly 0.9: no parameter is extracted from that text). -/
theorem drivers_standings_override_witness :
    (parse_query "查询F1车手积分榜").sport = some "f1" ∧
    (parse_query "查询F1车手积分榜").query_type = some "standings" ∧
    tenths 9 ≤ (parse_query "查询F1车手积分榜").confidence :=
  ⟨by decide,
   (drivers_standings_override "查询F1车手积分榜" (by decide) (by decide) (by decide)).1,
   (drivers_standings_override "查询F1车手积分榜" (by decide) (by decide) (by decide)).2.2⟩

/-! ### Claim C9: the confidence bound -/

theorem baseConf10_le (t : String) : baseConf10 t ≤ 6 := by
  unfold baseConf10
  split <;> split <;> omega

theorem playerOverride_le {t : String} {sport : Option String} {qc : Option String × Nat}
    (h : qc.2 ≤ 9) : (playerOverride t sport qc).2 ≤ 9 := by
  unfold playerOverride
  split
  · exact Nat.max_le.2 ⟨h, by omega⟩
  · exact h

theorem scorerOverride_le {t : String} {sport : Option String} {qc : Option String × Nat}
    (h : qc.2 ≤ 9) : (scorerOverride t sport qc).2 ≤ 9 := by
  unfold scorerOverride
  split
  · exact Nat.max_le.2 ⟨h, by omega⟩
  · exact h

theorem teamsOverride_le {t : String} {sport : Option String} {qc : Option String × Nat}
    (h : qc.2 ≤ 9) : (teamsOverride t sport qc).2 ≤ 9 := by
  unfold teamsOverride
  split
  · exact Nat.max_le.2 ⟨h, by omega⟩
  · exact h

theorem driversOverride_le {t : String} {sport : Option String} {qc : Option String × Nat}
    (h : qc.2 ≤ 9) : (driversOverride t sport qc).2 ≤ 9 := by
  unfold driversOverride
  split
  · exact Nat.max_le.2 ⟨h, by omega⟩
  · exact h

theorem afterOverrides_le (t : String) : (afterOverrides t).2 ≤ 9 := by
  unfold afterOverrides beforeDrivers
  apply driversOverride_le
  apply teamsOverride_le
  apply scorerOverride_le
  apply playerOverride_le
  exact le_trans (baseConf10_le t) (by omega)

/-- C9.  For every input text the returned confidence lies in the closed
interval `[0, 1.3]` — with the code's float increments read as the exact
rationals 0.3 + 0.3 raised by `max` to at most 0.9 by the overrides, plus at
most one 0.4 parameter bonus — and the bound 1.3 is attained, for instance by
`"2023年F1车手积分榜"` (drivers-standings override to 0.9, year parameter
bonus 0.4). -/
theorem confidence_bounds :
    (∀ text, 0 ≤ (parse_query text).confidence ∧ (parse_query text).confidence ≤ 13 / 10) ∧
    (parse_query "2023年F1车手积分榜").confidence = 13 / 10 := by
  constructor
  · intro text
    rw [parse_query_conf]
    refine ⟨tenths_nonneg _, ?_⟩
    have hN :
        (if (extract_parameters (normalize text) (detectSport (normalize text))).isEmpty then
          (afterOverrides (normalize text)).2
        else (afterOverrides (normalize text)).2 + 4) ≤ 13 := by
      have hov := afterOverrides_le (normalize text)
      split <;> omega
    calc tenths _ ≤ tenths 13 := tenths_le_tenths hN
      _ = 13 / 10 := by unfold tenths; norm_num
  · have h13 : (parse_query "2023年F1车手积分榜").confidence = tenths 13 := rfl
    rw [h13]
    unfold tenths
    norm_num

/-! ### Claim C6: option listing — filtering, ordering, stability -/

theorem mem_insertTsDesc {a x : OptionView} {l : List OptionView} :
    a ∈ insertTsDesc x l ↔ a = x ∨ a ∈ l := by
  induction l with
  | nil => simp [insertTsDesc]
  | cons y ys ih =>
      by_cases h : x.timestamp < y.timestamp
      · simp only [insertTsDesc, if_pos h, List.mem_cons, ih]
        tauto
      · simp only [insertTsDesc, if_neg h, List.mem_cons]

theorem mem_sortTsDesc {a : OptionView} {l : List OptionView} :
    a ∈ sortTsDesc l ↔ a ∈ l := by
  induction l with
  | nil => simp [sortTsDesc]
  | cons x xs ih =>
      simp only [sortTsDesc, mem_insertTsDesc, ih, List.mem_cons]

theorem pairwise_insertTsDesc {x : OptionView} {l : List OptionView}
    (hl : l.Pairwise (fun a b => b.timestamp ≤ a.timestamp)) :
    (insertTsDesc x l).Pairwise (fun a b => b.timestamp ≤ a.timestamp) := by
  induction l with
  | nil => simp [insertTsDesc]
  | cons y ys ih =>
      rcases List.pairwise_cons.1 hl with ⟨hy, hys⟩
      by_cases h : x.timestamp < y.timestamp
      · rw [insertTsDesc, if_pos h]
        refine List.pairwise_cons.2 ⟨?_, ih hys⟩
        intro b hb
        rcases mem_insertTsDesc.1 hb with rfl | hbl
        · exact le_of_lt h
        · exact hy b hbl
      · rw [insertTsDesc, if_neg h]
        refine List.pairwise_cons.2 ⟨?_, hl⟩
        intro b hb
        have hyx : y.timestamp ≤ x.timestamp := le_of_not_lt h
        rcases List.mem_cons.1 hb with rfl | hbl
        · exact hyx
        · exact le_trans (hy b hbl) hyx

theorem pairwise_sortTsDesc (l : List OptionView) :
    (sortTsDesc l).Pairwise (fun a b => b.timestamp ≤ a.timestamp) := by
  induction l with
  | nil => simp [sortTsDesc]
  | cons x xs ih => exact pairwise_insertTsDesc ih

theorem filter_insertTsDesc (x : OptionView) (l : List OptionView) (k : String) :
    (insertTsDesc x l).filter (fun o => o.timestamp == k) =
      if x.timestamp == k then x :: l.filter (fun o => o.timestamp == k)
      else l.filter (fun o => o.timestamp == k) := by
  induction l with
  | nil =>
      by_cases hx : (x.timestamp == k) = true <;>
        simp [insertTsDesc, List.filter_cons, hx]
  | cons y ys ih =>
      by_cases h : x.timestamp < y.timestamp
      · rw [insertTsDesc, if_pos h]
        by_cases hyk : (y.timestamp == k) = true
        · have hne : x.timestamp ≠ k := fun he => by
            rw [beq_iff_eq] at hyk
            rw [he, ← hyk] at h
            exact lt_irrefl _ h
          have hxk : (x.timestamp == k) = false := beq_eq_false_iff_ne.2 hne
          simp [List.filter_cons, hyk, hxk, ih]
        · simp [List.filter_cons, hyk, ih]
      · rw [insertTsDesc, if_neg h]
        by_cases hxk : (x.timestamp == k) = true <;>
          simp [List.filter_cons, hxk]

theorem filter_sortTsDesc (l : List OptionView) (k : String) :
    (sortTsDesc l).filter (fun o => o.timestamp == k) =
      l.filter (fun o => o.timestamp == k) := by
  induction l with
  | nil => rfl
  | cons x xs ih =>
      rw [sortTsDesc, filter_insertTsDesc]
      by_cases hx : (x.timestamp == k) = true <;> simp [List.filter_cons, hx, ih]

/-- C6.  Every option returned by `get_available_options(domain, queryType)`
comes from an entry of that domain whose `query_type` equals the requested one
and whose `success` flag is true (and is built from that entry); the returned
sequence is sorted by timestamp descending; and for every timestamp value the
equal-timestamp options appear in exactly their pre-sort (insertion) order —
the stability of the final sort. -/
theorem available_options_spec (s : Store) (sport query_type : String) (nowYear : Int) :
    (∀ o ∈ get_available_options s sport query_type nowYear,
      ∃ m ck e, alookup s.domains sport = some m ∧ (ck, e) ∈ m ∧
        e.query_type = query_type ∧ e.success = true ∧
        buildOption sport query_type nowYear ck e = some o) ∧
    (get_available_options s sport query_type nowYear).Pairwise
      (fun a b => b.timestamp ≤ a.timestamp) ∧
    (∀ k, (get_available_options s sport query_type nowYear).filter
        (fun o => o.timestamp == k) =
      (rawOptions s sport query_type nowYear).filter (fun o => o.timestamp == k)) := by
  refine ⟨?_, pairwise_sortTsDesc _, fun k => filter_sortTsDesc _ k⟩
  intro o ho
  rw [get_available_options, mem_sortTsDesc] at ho
  unfold rawOptions at ho
  cases hm : alookup s.domains sport with
  | none => rw [hm] at ho; cases ho
  | some m =>
      rw [hm] at ho
      rcases List.mem_filterMap.1 ho with ⟨p, hp, hfp⟩
      by_cases hc : p.2.query_type = query_type ∧ p.2.success = true
      · rw [if_pos hc] at hfp
        exact ⟨m, p.1, p.2, rfl, by simpa using hp, hc.1, hc.2, hfp⟩
      · rw [if_neg hc] at hfp
        cases hfp

end SportData
